import Mathlib

/-!
Verification development for the zk-gashealth-soundness tool (src/gaszkapp.py).

The Python program is embedded shallowly:
* Python floats are modelled as exact rationals (ℚ); Python's `round(x, n)`
  (round-half-to-even at `n` decimal digits) is `pyRound`, and `int(x)`
  (truncation toward zero) is `pyInt`.
* Network state is explicit: a `W3` value carries the node's latest block
  number and a partial block lookup; `none` from the lookup stands for an
  RPC exception raised by `w3.eth.get_block`.
* `analyze_chain_health` returns, along with the optional report, the list
  of block numbers actually fetched (the loop's query trace, in order);
  `none` for the report stands for an uncaught exception inside the
  analysis (a failed fetch, or the `ZeroDivisionError` raised by
  `sum(...) / len(...)` on an empty block list).
* `main_status` is the process exit code computed by `main` (sys.exit
  arguments 0 / 1 / 2); connectivity (`w3.is_connected()`) is an explicit
  boolean input.
* Wall-clock fields (`timestamp` ISO rendering, `elapsed_seconds`) are
  presentation-only and not part of any arithmetic; they are omitted from
  the embedding.
-/

/-- Round a rational to the nearest integer, ties to even
(the rounding used by Python's builtin `round`). -/
def roundHalfEven (x : ℚ) : ℤ :=
  let f : ℤ := ⌊x⌋
  let frac : ℚ := x - (f : ℚ)
  if frac < 1/2 then f
  else if 1/2 < frac then f + 1
  else if f % 2 = 0 then f else f + 1

/-- Python `round(x, ndigits)`: round half to even at `ndigits` decimal places. -/
def pyRound (x : ℚ) (ndigits : ℕ) : ℚ :=
  (roundHalfEven (x * (10 : ℚ) ^ ndigits) : ℚ) / (10 : ℚ) ^ ndigits

/-- Python `int(x)` on a number: truncation toward zero. -/
def pyInt (x : ℚ) : ℤ :=
  if 0 ≤ x then ⌊x⌋ else ⌈x⌉

/-- Python `range(a, b)` over integers, as an ascending list. -/
def pyRange (a b : ℤ) : List ℤ :=
  (List.range (b - a).toNat).map fun i : ℕ => a + (i : ℤ)

/-- A raw block record as returned by `w3.eth.get_block`:
the fields the program reads (`number`, `timestamp`, `transactions`,
`gasUsed`, `gasLimit`, and the optional `baseFeePerGas`). -/
structure RawBlock where
  number : ℤ
  timestamp : ℕ
  transactions : List ℕ
  gasUsed : ℕ
  gasLimit : ℕ
  baseFeePerGas : Option ℕ
deriving DecidableEq

/-- The flat metrics record built by `fetch_block_metrics`
(the ISO `timestamp` string is presentation-only and omitted). -/
structure BlockMetrics where
  number : ℤ
  tx_count : ℕ
  gas_used : ℕ
  gas_limit : ℕ
  utilization_percent : ℚ
  base_fee_gwei : ℚ
deriving DecidableEq

/-- The node connection: `eth.block_number` and `eth.get_block`
(`none` = the RPC call raises). -/
structure W3 where
  block_number : ℤ
  get_block : ℤ → Option RawBlock

/-- The metric computations of `fetch_block_metrics` (lines 16-29):
`utilization = round((gas_used / gas_limit) * 100, 2) if gas_limit else 0`,
`base_fee = block.get("baseFeePerGas", 0)`, `round(base_fee / 1e9, 3)`. -/
def extract_metrics (block : RawBlock) : BlockMetrics :=
  { number := block.number
    tx_count := block.transactions.length
    gas_used := block.gasUsed
    gas_limit := block.gasLimit
    utilization_percent :=
      if block.gasLimit ≠ 0 then
        pyRound (((block.gasUsed : ℚ) / (block.gasLimit : ℚ)) * 100) 2
      else 0
    base_fee_gwei := pyRound ((block.baseFeePerGas.getD 0 : ℚ) / 1000000000) 3 }

/-- `fetch_block_metrics(w3, block_id)`: get the block, then extract;
`none` when the RPC call raises. -/
def fetch_block_metrics (w3 : W3) (block_id : ℤ) : Option BlockMetrics :=
  (w3.get_block block_id).map extract_metrics

/-- The aggregate report built by `analyze_chain_health`
(`elapsed_seconds` is wall-clock and omitted). -/
structure ChainHealthReport where
  block_count : ℤ
  average_utilization_percent : ℚ
  max_utilization_percent : ℚ
  min_utilization_percent : ℚ
  average_base_fee_gwei : ℚ
  soundness_ok : Bool
  analyzed_blocks : List BlockMetrics
deriving DecidableEq

/-- The fetch loop of `analyze_chain_health` (lines 37-40): fetch each block
number in order, appending its metrics; the first failing fetch aborts the
loop (the exception propagates).  Returns the trace of block numbers
queried, and the collected metrics (`none` on a failed fetch). -/
def fetchLoop (w3 : W3) : List ℤ → List ℤ × Option (List BlockMetrics)
  | [] => ([], some [])
  | num :: rest =>
    match fetch_block_metrics w3 num with
    | none => ([num], none)
    | some m =>
      match fetchLoop w3 rest with
      | (t, none) => (num :: t, none)
      | (t, some ms) => (num :: t, some (m :: ms))

/-- `analyze_chain_health(w3, block_count)` (lines 31-59).  The first
component is the trace of block numbers fetched; the second is the report,
or `none` when the analysis raises (a fetch failure, or `ZeroDivisionError`
from `sum(utilizations) / len(utilizations)` on an empty range). -/
def analyze_chain_health (w3 : W3) (block_count : ℤ) :
    List ℤ × Option ChainHealthReport :=
  let latest := w3.block_number
  let nums := pyRange (latest - block_count + 1) (latest + 1)
  match fetchLoop w3 nums with
  | (trace, none) => (trace, none)
  | (trace, some blocks) =>
    match blocks with
    | [] => (trace, none)
    | b :: bs =>
      let utilizations := (b :: bs).map fun x => x.utilization_percent
      let avg_util := pyRound (utilizations.sum / (utilizations.length : ℚ)) 2
      let max_util := (bs.map fun x => x.utilization_percent).foldl max b.utilization_percent
      let min_util := (bs.map fun x => x.utilization_percent).foldl min b.utilization_percent
      let avg_base_fee :=
        pyRound ((((b :: bs).map fun x => x.base_fee_gwei).sum) / (((b :: bs).length : ℚ))) 3
      (trace, some
        { block_count := block_count
          average_utilization_percent := avg_util
          max_utilization_percent := max_util
          min_utilization_percent := min_util
          average_base_fee_gwei := avg_base_fee
          soundness_ok := decide (avg_util > 50 ∧ max_util - min_util < 40)
          analyzed_blocks := b :: bs })

/-- The CLI arguments the control flow depends on. -/
structure Args where
  rpc : String
  count : ℤ
deriving DecidableEq

/-- Python `s.startswith(p)` on character sequences: `p` is a prefix of `s`. -/
def charStartsWith : List Char → List Char → Bool
  | _, [] => true
  | [], _ :: _ => false
  | c :: s, d :: p => if c = d then charStartsWith s p else false

/-- Line 74: `args.rpc.startswith(("http://", "https://"))`. -/
def validScheme (url : String) : Bool :=
  charStartsWith url.data "http://".data || charStartsWith url.data "https://".data

/-- The exit code computed by `main` (lines 71-110): 1 on a bad URL scheme
(before any network call) or a failed connectivity check; 2 when
`analyze_chain_health` raises; otherwise 0 if `soundness_ok` else 2. -/
def main_status (args : Args) (connected : Bool) (w3 : W3) : ℕ :=
  if ¬ validScheme args.rpc then 1
  else if ¬ connected then 1
  else
    match (analyze_chain_health w3 args.count).2 with
    | none => 2
    | some result => if result.soundness_ok then 0 else 2

/-- Line 102: `filled_blocks = int(avg_util / 5)`. -/
def filled_blocks (avg_util : ℚ) : ℤ :=
  pyInt (avg_util / 5)

/-- Line 103: `bar = "█" * filled_blocks + "-" * (20 - filled_blocks)`
(Python string repetition with a negative count yields the empty string). -/
def renderBar (avg_util : ℚ) : String :=
  String.mk (List.replicate (filled_blocks avg_util).toNat '█' ++
    List.replicate (20 - filled_blocks avg_util).toNat '-')

/-- A well-behaved synthetic block: 24M/30M gas (80% utilization),
base fee 1.5 Gwei. -/
def mkBlock (n : ℤ) : RawBlock :=
  { number := n
    timestamp := 0
    transactions := []
    gasUsed := 24000000
    gasLimit := 30000000
    baseFeePerGas := some 1500000000 }

/-- A mocked node at height 1000 answering every block query. -/
def mockW3 : W3 :=
  { block_number := 1000
    get_block := fun n => some (mkBlock n) }

/-- A mocked node at height 1000 whose fetch of block 998 fails
(the 3rd of the 5 blocks 996..1000). -/
def failW3 : W3 :=
  { block_number := 1000
    get_block := fun n => if n = 998 then none else some (mkBlock n) }

lemma roundHalfEven_intCast (z : ℤ) : roundHalfEven (z : ℚ) = z := by
  simp only [roundHalfEven, Int.floor_intCast, sub_self]
  norm_num

lemma pyRound_eq_self (x : ℚ) (k : ℕ) (z : ℤ) (h : x * (10 : ℚ) ^ k = (z : ℚ)) :
    pyRound x k = x := by
  unfold pyRound
  rw [h, roundHalfEven_intCast, ← h, mul_div_assoc, div_self (by positivity), mul_one]

lemma roundHalfEven_le (x : ℚ) : (roundHalfEven x : ℚ) ≤ x + 1/2 := by
  simp only [roundHalfEven]
  have hfl : (⌊x⌋ : ℚ) ≤ x := Int.floor_le x
  split_ifs with h1 h2 h3
  · linarith
  · push_cast
    linarith
  · linarith
  · push_cast
    linarith

lemma le_roundHalfEven (x : ℚ) : x - 1/2 ≤ (roundHalfEven x : ℚ) := by
  simp only [roundHalfEven]
  have hfl : x < (⌊x⌋ : ℚ) + 1 := Int.lt_floor_add_one x
  split_ifs with h1 h2 h3
  · linarith
  · push_cast
    linarith
  · linarith
  · push_cast
    linarith

lemma pyRange_length (a b : ℤ) : (pyRange a b).length = (b - a).toNat := by
  unfold pyRange
  rw [List.length_map, List.length_range]

lemma pyRange_get (a b : ℤ) (i : ℕ) (hi : i < (pyRange a b).length) :
    (pyRange a b).get ⟨i, hi⟩ = a + (i : ℤ) := by
  unfold pyRange at hi ⊢
  rw [List.get_eq_getElem]
  simp only [List.getElem_map, List.getElem_range]

lemma pyRange_nodup (a b : ℤ) : (pyRange a b).Nodup := by
  unfold pyRange
  refine List.Nodup.map ?_ (List.nodup_range _)
  intro i j hij
  have := add_left_cancel hij
  exact_mod_cast this

lemma pyRange_empty (a b : ℤ) (h : b ≤ a) : pyRange a b = [] := by
  unfold pyRange
  rw [Int.toNat_of_nonpos (by omega : b - a ≤ 0)]
  rfl

lemma fetchLoop_node (w3 : W3)
    (hnode : ∀ n : ℤ, ∃ b, w3.get_block n = some b ∧ b.number = n) :
    ∀ nums : List ℤ, ∃ ms : List BlockMetrics,
      fetchLoop w3 nums = (nums, some ms) ∧ ms.map (fun m => m.number) = nums := by
  intro nums
  induction nums with
  | nil => exact ⟨[], rfl, rfl⟩
  | cons n rest ih =>
    obtain ⟨b, hb, hbn⟩ := hnode n
    obtain ⟨ms, hms, hmap⟩ := ih
    refine ⟨extract_metrics b :: ms, ?_, ?_⟩
    · simp [fetchLoop, fetch_block_metrics, hb, hms]
    · simp [hmap, extract_metrics, hbn]

lemma fetchLoop_fail (w3 : W3) :
    ∀ (nums : List ℤ) (i : ℕ) (hi : i < nums.length),
      fetch_block_metrics w3 (nums.get ⟨i, hi⟩) = none →
      (∀ (j : ℕ) (hj : j < nums.length), j < i →
        (fetch_block_metrics w3 (nums.get ⟨j, hj⟩)).isSome) →
      fetchLoop w3 nums = (nums.take (i + 1), none) := by
  intro nums
  induction nums with
  | nil =>
    intro i hi
    exact absurd hi (by simp)
  | cons n rest ih =>
    intro i hi hfail hok
    cases i with
    | zero =>
      have hfail2 : fetch_block_metrics w3 n = none := hfail
      simp [fetchLoop, hfail2]
    | succ k =>
      have h0 : (fetch_block_metrics w3 n).isSome := hok 0 (by simp) (Nat.succ_pos k)
      obtain ⟨m, hm⟩ := Option.isSome_iff_exists.mp h0
      have hk : k < rest.length := by simpa using hi
      have hfail2 : fetch_block_metrics w3 (rest.get ⟨k, hk⟩) = none := hfail
      have hok2 : ∀ (j : ℕ) (hj : j < rest.length), j < k →
          (fetch_block_metrics w3 (rest.get ⟨j, hj⟩)).isSome := by
        intro j hj hjk
        exact hok (j + 1) (Nat.succ_lt_succ hj) (Nat.succ_lt_succ hjk)
      have hrec := ih k hk hfail2 hok2
      simp [fetchLoop, hm, hrec]

lemma analyze_nonpos (w3 : W3) (count : ℤ) (h : count ≤ 0) :
    analyze_chain_health w3 count = ([], none) := by
  have hr : pyRange (w3.block_number - count + 1) (w3.block_number + 1) = [] :=
    pyRange_empty _ _ (by omega)
  simp [analyze_chain_health, hr, fetchLoop]

lemma le_foldl_max (l : List ℚ) (x : ℚ) : x ≤ l.foldl max x := by
  induction l generalizing x with
  | nil => exact le_refl x
  | cons a t ih => exact le_trans (le_max_left x a) (ih (max x a))

lemma foldl_max_mem (l : List ℚ) (x : ℚ) : l.foldl max x = x ∨ l.foldl max x ∈ l := by
  induction l generalizing x with
  | nil => exact Or.inl rfl
  | cons a t ih =>
    rcases ih (max x a) with h | h
    · rcases max_choice x a with hc | hc
      · left
        simp only [List.foldl_cons, hc]
        rw [hc] at h
        exact h
      · right
        simp only [List.foldl_cons, hc]
        rw [hc] at h
        rw [h]
        exact List.mem_cons_self a t
    · exact Or.inr (List.mem_cons_of_mem a h)

lemma mem_le_foldl_max (l : List ℚ) (x : ℚ) : ∀ u ∈ l, u ≤ l.foldl max x := by
  induction l generalizing x with
  | nil => intro u hu; exact absurd hu (by simp)
  | cons a t ih =>
    intro u hu
    rcases List.mem_cons.mp hu with rfl | hu
    · exact le_trans (le_max_right x u) (le_foldl_max t (max x u))
    · exact ih (max x a) u hu

lemma foldl_min_le (l : List ℚ) (x : ℚ) : l.foldl min x ≤ x := by
  induction l generalizing x with
  | nil => exact le_refl x
  | cons a t ih => exact le_trans (ih (min x a)) (min_le_left x a)

lemma foldl_min_mem (l : List ℚ) (x : ℚ) : l.foldl min x = x ∨ l.foldl min x ∈ l := by
  induction l generalizing x with
  | nil => exact Or.inl rfl
  | cons a t ih =>
    rcases ih (min x a) with h | h
    · rcases min_choice x a with hc | hc
      · left
        simp only [List.foldl_cons, hc]
        rw [hc] at h
        exact h
      · right
        simp only [List.foldl_cons, hc]
        rw [hc] at h
        rw [h]
        exact List.mem_cons_self a t
    · exact Or.inr (List.mem_cons_of_mem a h)

lemma foldl_min_le_mem (l : List ℚ) (x : ℚ) : ∀ u ∈ l, l.foldl min x ≤ u := by
  induction l generalizing x with
  | nil => intro u hu; exact absurd hu (by simp)
  | cons a t ih =>
    intro u hu
    rcases List.mem_cons.mp hu with rfl | hu
    · exact le_trans (foldl_min_le t (min x u)) (min_le_right x u)
    · exact ih (min x a) u hu

lemma analyze_some_spec (w3 : W3) (count : ℤ) (r : ChainHealthReport)
    (h : (analyze_chain_health w3 count).2 = some r) :
    ∃ b bs, r.analyzed_blocks = b :: bs ∧
      r.block_count = count ∧
      r.average_utilization_percent =
        pyRound ((((b :: bs).map fun x => x.utilization_percent).sum) /
          ((((b :: bs).map fun x => x.utilization_percent)).length : ℚ)) 2 ∧
      r.max_utilization_percent =
        (bs.map fun x => x.utilization_percent).foldl max b.utilization_percent ∧
      r.min_utilization_percent =
        (bs.map fun x => x.utilization_percent).foldl min b.utilization_percent ∧
      r.average_base_fee_gwei =
        pyRound ((((b :: bs).map fun x => x.base_fee_gwei).sum) / (((b :: bs).length : ℚ))) 3 ∧
      r.soundness_ok = decide (r.average_utilization_percent > 50 ∧
        r.max_utilization_percent - r.min_utilization_percent < 40) := by
  simp only [analyze_chain_health] at h
  rcases hfl : fetchLoop w3
      (pyRange (w3.block_number - count + 1) (w3.block_number + 1)) with ⟨trace, ob⟩
  rw [hfl] at h
  cases ob with
  | none => simp at h
  | some blocks =>
    cases blocks with
    | nil => simp at h
    | cons b bs =>
      simp only [Option.some.injEq] at h
      refine ⟨b, bs, ?_⟩
      rw [← h]
      simp

/-- The metrics of any `mkBlock`: 80% utilization, 1.5 Gwei. -/
def mockMetrics (n : ℤ) : BlockMetrics :=
  { number := n
    tx_count := 0
    gas_used := 24000000
    gas_limit := 30000000
    utilization_percent := 80
    base_fee_gwei := 3/2 }

lemma extract_mkBlock (n : ℤ) : extract_metrics (mkBlock n) = mockMetrics n := by
  have h2 : pyRound 80 2 = 80 := pyRound_eq_self 80 2 8000 (by norm_num)
  have h4 : pyRound (3/2) 3 = 3/2 := pyRound_eq_self (3/2) 3 1500 (by norm_num)
  unfold extract_metrics mkBlock mockMetrics
  norm_num [h2, h4]

/-- The report of `analyze_chain_health mockW3 1`. -/
def mockReport : ChainHealthReport :=
  { block_count := 1
    average_utilization_percent := 80
    max_utilization_percent := 80
    min_utilization_percent := 80
    average_base_fee_gwei := 3/2
    soundness_ok := true
    analyzed_blocks := [mockMetrics 1000] }

lemma analyze_mockW3_one : analyze_chain_health mockW3 1 = ([1000], some mockReport) := by
  have hr : pyRange (mockW3.block_number - 1 + 1) (mockW3.block_number + 1) = [1000] := by
    decide
  have hfetch : fetch_block_metrics mockW3 1000 = some (mockMetrics 1000) := by
    simp [fetch_block_metrics, mockW3, extract_mkBlock]
  have hfl : fetchLoop mockW3 [1000] = ([1000], some [mockMetrics 1000]) := by
    simp [fetchLoop, hfetch]
  have h2 : pyRound 80 2 = 80 := pyRound_eq_self 80 2 8000 (by norm_num)
  have h4 : pyRound (3/2) 3 = 3/2 := pyRound_eq_self (3/2) 3 1500 (by norm_num)
  simp only [analyze_chain_health, hr, hfl]
  norm_num [mockReport, mockMetrics, h2, h4, decide_eq_true_eq]

/-- Claim C1: for every report produced by the analyzer, `soundness_ok` is
true iff the average utilization strictly exceeds 50 and the utilization
range (max minus min) is strictly below 40; an average of exactly 50 gives
false, an average of 50.01 with range 39.99 gives true, and a range of
exactly 40 gives false. -/
theorem soundness_rule (w3 : W3) (count : ℤ) (r : ChainHealthReport)
    (h : (analyze_chain_health w3 count).2 = some r) :
    (r.soundness_ok = true ↔ r.average_utilization_percent > 50 ∧
      r.max_utilization_percent - r.min_utilization_percent < 40) ∧
    (r.average_utilization_percent = 50 → r.soundness_ok = false) ∧
    (r.average_utilization_percent = 5001/100 ∧
      r.max_utilization_percent - r.min_utilization_percent = 3999/100 →
      r.soundness_ok = true) ∧
    (r.max_utilization_percent - r.min_utilization_percent = 40 →
      r.soundness_ok = false) := by
  obtain ⟨b, bs, hblocks, hbc, havg, hmax, hmin, hfee, hsound⟩ :=
    analyze_some_spec w3 count r h
  rw [hsound]
  refine ⟨by simp, ?_, ?_, ?_⟩
  · intro h50
    rw [decide_eq_false_iff_not]
    rintro ⟨h1, _⟩
    rw [h50] at h1
    exact lt_irrefl 50 h1
  · rintro ⟨h1, h2⟩
    rw [decide_eq_true_eq]
    rw [h1, h2]
    norm_num
  · intro h40
    rw [decide_eq_false_iff_not]
    rintro ⟨_, h2⟩
    rw [h40] at h2
    exact lt_irrefl 40 h2

/-- Witness for C1 at the mocked node: the analyzer over one 80%-utilized
block yields `mockReport`, and the soundness rule holds for it. -/
theorem soundness_rule_witness :
    (analyze_chain_health mockW3 1).2 = some mockReport ∧
    ((mockReport.soundness_ok = true ↔ mockReport.average_utilization_percent > 50 ∧
      mockReport.max_utilization_percent - mockReport.min_utilization_percent < 40) ∧
     (mockReport.average_utilization_percent = 50 → mockReport.soundness_ok = false) ∧
     (mockReport.average_utilization_percent = 5001/100 ∧
      mockReport.max_utilization_percent - mockReport.min_utilization_percent = 3999/100 →
      mockReport.soundness_ok = true) ∧
     (mockReport.max_utilization_percent - mockReport.min_utilization_percent = 40 →
      mockReport.soundness_ok = false)) :=
  ⟨by rw [analyze_mockW3_one], soundness_rule mockW3 1 mockReport (by rw [analyze_mockW3_one])⟩

/-- Claim C2: the exit code is always one of 0, 1, 2; it is 1 exactly when
the URL scheme is bad (regardless of the network) or the connectivity check
fails; 0 exactly when analysis completes with a stable verdict; 2 exactly
when analysis raises or completes with an unstable verdict. -/
theorem exit_code_mapping (args : Args) (connected : Bool) (w3 : W3) :
    (main_status args connected w3 = 0 ∨ main_status args connected w3 = 1 ∨
      main_status args connected w3 = 2) ∧
    (main_status args connected w3 = 1 ↔
      validScheme args.rpc = false ∨ connected = false) ∧
    (main_status args connected w3 = 0 ↔
      validScheme args.rpc = true ∧ connected = true ∧
      ∃ r, (analyze_chain_health w3 args.count).2 = some r ∧ r.soundness_ok = true) ∧
    (main_status args connected w3 = 2 ↔
      validScheme args.rpc = true ∧ connected = true ∧
      ((analyze_chain_health w3 args.count).2 = none ∨
        ∃ r, (analyze_chain_health w3 args.count).2 = some r ∧
          r.soundness_ok = false)) := by
  cases hv : validScheme args.rpc with
  | false => simp [main_status, hv]
  | true =>
    cases connected with
    | false => simp [main_status, hv]
    | true =>
      cases h : (analyze_chain_health w3 args.count).2 with
      | none => simp [main_status, hv, h]
      | some r =>
        cases hs : r.soundness_ok with
        | false => simp [main_status, hv, h, hs]
        | true => simp [main_status, hv, h, hs]

lemma analyze_of_fetchLoop (w3 : W3) (count : ℤ) (m : BlockMetrics)
    (ms2 : List BlockMetrics)
    (hfl : fetchLoop w3 (pyRange (w3.block_number - count + 1) (w3.block_number + 1)) =
      (pyRange (w3.block_number - count + 1) (w3.block_number + 1), some (m :: ms2))) :
    ∃ r, (analyze_chain_health w3 count).2 = some r ∧ r.analyzed_blocks = m :: ms2 := by
  simp only [analyze_chain_health, hfl]
  exact ⟨_, rfl, rfl⟩

/-- Claim C3: for a block count of at least 1 against a node that answers
every query with a block carrying the queried number, the analyzer
succeeds, its `analyzed_blocks` has length exactly the count, and the i-th
entry's block number is `latest - count + 1 + i` (the inclusive ascending
range ending at `latest`, step 1). -/
theorem analyzed_blocks_range (w3 : W3) (count : ℤ) (hcount : 1 ≤ count)
    (hnode : ∀ n : ℤ, ∃ b, w3.get_block n = some b ∧ b.number = n) :
    ∃ r, (analyze_chain_health w3 count).2 = some r ∧
      r.analyzed_blocks.length = count.toNat ∧
      ∀ (i : ℕ) (hi : i < r.analyzed_blocks.length),
        (r.analyzed_blocks.get ⟨i, hi⟩).number =
          w3.block_number - count + 1 + (i : ℤ) := by
  obtain ⟨ms, hfl, hmap⟩ := fetchLoop_node w3 hnode
    (pyRange (w3.block_number - count + 1) (w3.block_number + 1))
  have hspan : w3.block_number + 1 - (w3.block_number - count + 1) = count := by ring
  have hlen : ms.length = count.toNat := by
    have h1 : (ms.map fun m => m.number).length =
        (pyRange (w3.block_number - count + 1) (w3.block_number + 1)).length := by
      rw [hmap]
    rw [List.length_map] at h1
    rw [h1, pyRange_length, hspan]
  cases hms : ms with
  | nil =>
    rw [hms] at hlen
    simp at hlen
    omega
  | cons m ms2 =>
    rw [hms] at hfl hmap hlen
    obtain ⟨r, hr, hrb⟩ := analyze_of_fetchLoop w3 count m ms2 hfl
    refine ⟨r, hr, ?_, ?_⟩
    · rw [hrb]
      exact hlen
    · rw [hrb]
      intro i hi
      have hi2 : i < ((m :: ms2).map fun x => x.number).length := by
        rw [List.length_map]
        exact hi
      have hi3 : i < (pyRange (w3.block_number - count + 1) (w3.block_number + 1)).length := by
        rw [pyRange_length, hspan]
        rw [hlen] at hi
        exact hi
      have hq : ((m :: ms2).map fun x => x.number).get? i =
          some (w3.block_number - count + 1 + (i : ℤ)) := by
        rw [hmap, List.get?_eq_get hi3, pyRange_get]
      rw [List.get?_eq_get hi2] at hq
      have hg : ((m :: ms2).map fun x => x.number).get ⟨i, hi2⟩ =
          ((m :: ms2).get ⟨i, hi⟩).number := by
        rw [List.get_eq_getElem, List.get_eq_getElem]
        exact List.getElem_map _
      rw [hg] at hq
      exact Option.some.inj hq

/-- Witness for C3: the mocked node at height 1000 with count 1. -/
theorem analyzed_blocks_range_witness :
    (1 : ℤ) ≤ 1 ∧
    (∀ n : ℤ, ∃ b, mockW3.get_block n = some b ∧ b.number = n) ∧
    (∃ r, (analyze_chain_health mockW3 1).2 = some r ∧
      r.analyzed_blocks.length = (1 : ℤ).toNat ∧
      ∀ (i : ℕ) (hi : i < r.analyzed_blocks.length),
        (r.analyzed_blocks.get ⟨i, hi⟩).number =
          mockW3.block_number - 1 + 1 + (i : ℤ)) :=
  ⟨le_refl 1, fun n => ⟨mkBlock n, rfl, rfl⟩,
    analyzed_blocks_range mockW3 1 (le_refl 1) (fun n => ⟨mkBlock n, rfl, rfl⟩)⟩

/-- Claim C4: if the fetch of the block at index `i` of the queried range
fails while all earlier fetches succeed, the whole analysis aborts: no
report is returned (not even a partial one), the loop queried exactly the
range's first `i + 1` block numbers with no block queried twice (no
per-block retry), and the process exits with code 2. -/
theorem fetch_failure_aborts (args : Args) (w3 : W3) (i : ℕ)
    (hv : validScheme args.rpc = true)
    (hi : i < (pyRange (w3.block_number - args.count + 1) (w3.block_number + 1)).length)
    (hfail : fetch_block_metrics w3
      ((pyRange (w3.block_number - args.count + 1) (w3.block_number + 1)).get ⟨i, hi⟩) = none)
    (hok : ∀ (j : ℕ)
      (hj : j < (pyRange (w3.block_number - args.count + 1) (w3.block_number + 1)).length),
      j < i → (fetch_block_metrics w3
        ((pyRange (w3.block_number - args.count + 1) (w3.block_number + 1)).get ⟨j, hj⟩)).isSome) :
    (analyze_chain_health w3 args.count).2 = none ∧
    (analyze_chain_health w3 args.count).1 =
      (pyRange (w3.block_number - args.count + 1) (w3.block_number + 1)).take (i + 1) ∧
    (analyze_chain_health w3 args.count).1.Nodup ∧
    main_status args true w3 = 2 := by
  have hfl := fetchLoop_fail w3
    (pyRange (w3.block_number - args.count + 1) (w3.block_number + 1)) i hi hfail hok
  have hana : analyze_chain_health w3 args.count =
      ((pyRange (w3.block_number - args.count + 1) (w3.block_number + 1)).take (i + 1), none) := by
    simp only [analyze_chain_health, hfl]
  refine ⟨by rw [hana], by rw [hana], ?_, ?_⟩
  · rw [hana]
    exact (pyRange_nodup _ _).sublist (List.take_sublist _ _)
  · simp [main_status, hv, hana]

/-- Witness for C4: against `failW3` (block 998 missing) with count 5, the
3rd fetch (index 2, block 998) fails; the run aborts with trace
`[996, 997, 998]`, no report, and exit code 2. -/
theorem fetch_failure_aborts_witness :
    validScheme "http://node" = true ∧
    2 < (pyRange (failW3.block_number - 5 + 1) (failW3.block_number + 1)).length ∧
    fetch_block_metrics failW3 998 = none ∧
    (analyze_chain_health failW3 5).2 = none ∧
    (analyze_chain_health failW3 5).1 = [996, 997, 998] ∧
    main_status { rpc := "http://node", count := 5 } true failW3 = 2 := by
  have hi : 2 < (pyRange (failW3.block_number - 5 + 1) (failW3.block_number + 1)).length := by
    decide
  have hget : (pyRange (failW3.block_number - 5 + 1) (failW3.block_number + 1)).get ⟨2, hi⟩ =
      998 := by
    rw [pyRange_get]
    decide
  have hfail : fetch_block_metrics failW3
      ((pyRange (failW3.block_number - 5 + 1) (failW3.block_number + 1)).get ⟨2, hi⟩) = none := by
    rw [hget]
    decide
  have hok : ∀ (j : ℕ)
      (hj : j < (pyRange (failW3.block_number - 5 + 1) (failW3.block_number + 1)).length),
      j < 2 → (fetch_block_metrics failW3
        ((pyRange (failW3.block_number - 5 + 1) (failW3.block_number + 1)).get ⟨j, hj⟩)).isSome := by
    intro j hj hjlt
    rw [pyRange_get]
    interval_cases j
    · decide
    · decide
  have h := fetch_failure_aborts { rpc := "http://node", count := 5 } failW3 2
    (by decide) hi hfail hok
  refine ⟨by decide, hi, by decide, h.1, ?_, h.2.2.2⟩
  rw [h.2.1]
  decide

/-- Claim C5: the extractor computes
`utilization_percent = round(gas_used / gas_limit * 100, 2)` when the gas
limit is nonzero, and 0 when it is zero; in particular 15,000,000 gas used
out of 30,000,000 yields exactly 50. -/
theorem utilization_formula (b : RawBlock) :
    ((extract_metrics b).utilization_percent =
      if b.gasLimit ≠ 0 then pyRound (((b.gasUsed : ℚ) / (b.gasLimit : ℚ)) * 100) 2
      else 0) ∧
    (b.gasUsed = 15000000 → b.gasLimit = 30000000 →
      (extract_metrics b).utilization_percent = 50) := by
  constructor
  · rfl
  · intro h1 h2
    have hq : ((b.gasUsed : ℚ) / (b.gasLimit : ℚ)) * 100 = 50 := by
      rw [h1, h2]
      norm_num
    simp only [extract_metrics]
    rw [if_pos (by rw [h2]; norm_num), hq]
    exact pyRound_eq_self 50 2 5000 (by norm_num)

/-- A raw block at exactly half utilization (15M / 30M gas). -/
def exampleBlock : RawBlock :=
  { number := 0
    timestamp := 0
    transactions := []
    gasUsed := 15000000
    gasLimit := 30000000
    baseFeePerGas := none }

/-- Witness for C5 at the 15M/30M block. -/
theorem utilization_formula_witness :
    exampleBlock.gasUsed = 15000000 ∧ exampleBlock.gasLimit = 30000000 ∧
    (extract_metrics exampleBlock).utilization_percent = 50 :=
  ⟨rfl, rfl, (utilization_formula exampleBlock).2 rfl rfl⟩

/-- Claim C6: in every report the analyzer returns, the average utilization
is the arithmetic mean of the per-block utilizations rounded to 2 decimals
(so utilizations 40 and 60 average to exactly 50), the max/min fields are a
member of and an upper/lower bound on the per-block utilizations, and the
average base fee is the mean of the per-block base fees rounded to 3
decimals. -/
theorem aggregate_statistics (w3 : W3) (count : ℤ) (r : ChainHealthReport)
    (h : (analyze_chain_health w3 count).2 = some r) :
    r.average_utilization_percent =
      pyRound (((r.analyzed_blocks.map fun x => x.utilization_percent).sum) /
        ((r.analyzed_blocks.length : ℚ))) 2 ∧
    r.max_utilization_percent ∈ (r.analyzed_blocks.map fun x => x.utilization_percent) ∧
    (∀ u ∈ (r.analyzed_blocks.map fun x => x.utilization_percent),
      u ≤ r.max_utilization_percent) ∧
    r.min_utilization_percent ∈ (r.analyzed_blocks.map fun x => x.utilization_percent) ∧
    (∀ u ∈ (r.analyzed_blocks.map fun x => x.utilization_percent),
      r.min_utilization_percent ≤ u) ∧
    r.average_base_fee_gwei =
      pyRound (((r.analyzed_blocks.map fun x => x.base_fee_gwei).sum) /
        ((r.analyzed_blocks.length : ℚ))) 3 ∧
    ((r.analyzed_blocks.map fun x => x.utilization_percent) = [40, 60] →
      r.average_utilization_percent = 50) := by
  obtain ⟨b, bs, hblocks, hbc, havg, hmax, hmin, hfee, hsound⟩ :=
    analyze_some_spec w3 count r h
  rw [List.length_map] at havg
  rw [hblocks]
  refine ⟨havg, ?_, ?_, ?_, ?_, hfee, ?_⟩
  · rw [hmax, List.map_cons]
    rcases foldl_max_mem (bs.map fun x => x.utilization_percent) b.utilization_percent
      with hc | hc
    · rw [hc]
      exact List.mem_cons_self _ _
    · exact List.mem_cons_of_mem _ hc
  · intro u hu
    rw [List.map_cons] at hu
    rw [hmax]
    rcases List.mem_cons.mp hu with rfl | hu2
    · exact le_foldl_max _ _
    · exact mem_le_foldl_max _ _ u hu2
  · rw [hmin, List.map_cons]
    rcases foldl_min_mem (bs.map fun x => x.utilization_percent) b.utilization_percent
      with hc | hc
    · rw [hc]
      exact List.mem_cons_self _ _
    · exact List.mem_cons_of_mem _ hc
  · intro u hu
    rw [List.map_cons] at hu
    rw [hmin]
    rcases List.mem_cons.mp hu with rfl | hu2
    · exact foldl_min_le _ _
    · exact foldl_min_le_mem _ _ u hu2
  · intro hm
    have hsum : ((b :: bs).map fun x => x.utilization_percent).sum = 100 := by
      rw [hm]
      norm_num
    have hlen : (b :: bs).length = 2 := by
      have := congrArg List.length hm
      rw [List.length_map] at this
      simpa using this
    rw [havg, hsum, hlen]
    norm_num
    exact pyRound_eq_self 50 2 5000 (by norm_num)

/-- Witness for C6 at the mocked node with count 1. -/
theorem aggregate_statistics_witness :
    (analyze_chain_health mockW3 1).2 = some mockReport ∧
    (mockReport.average_utilization_percent =
      pyRound (((mockReport.analyzed_blocks.map fun x => x.utilization_percent).sum) /
        ((mockReport.analyzed_blocks.length : ℚ))) 2 ∧
    mockReport.max_utilization_percent ∈
      (mockReport.analyzed_blocks.map fun x => x.utilization_percent) ∧
    (∀ u ∈ (mockReport.analyzed_blocks.map fun x => x.utilization_percent),
      u ≤ mockReport.max_utilization_percent) ∧
    mockReport.min_utilization_percent ∈
      (mockReport.analyzed_blocks.map fun x => x.utilization_percent) ∧
    (∀ u ∈ (mockReport.analyzed_blocks.map fun x => x.utilization_percent),
      mockReport.min_utilization_percent ≤ u) ∧
    mockReport.average_base_fee_gwei =
      pyRound (((mockReport.analyzed_blocks.map fun x => x.base_fee_gwei).sum) /
        ((mockReport.analyzed_blocks.length : ℚ))) 3 ∧
    ((mockReport.analyzed_blocks.map fun x => x.utilization_percent) = [40, 60] →
      mockReport.average_utilization_percent = 50)) :=
  ⟨by rw [analyze_mockW3_one],
    aggregate_statistics mockW3 1 mockReport (by rw [analyze_mockW3_one])⟩

/-- Counterexample to C7: with a valid URL, a reachable node and count 0,
nothing rejects the non-positive count before analysis; `main` passes it to
the analyzer, whose run fails on the empty range, and the process exits
with code 2 (the during-analysis-exception code), not with a
pre-analysis rejection code 1. -/
theorem count_validation_missing :
    main_status { rpc := "http://node", count := 0 } true mockW3 = 2 ∧
    (analyze_chain_health mockW3 0).2 = none ∧
    main_status { rpc := "http://node", count := 0 } true mockW3 ≠ 1 := by
  have hv : validScheme "http://node" = true := by decide
  have ha : analyze_chain_health mockW3 0 = ([], none) := analyze_nonpos mockW3 0 (le_refl 0)
  have hm : main_status { rpc := "http://node", count := 0 } true mockW3 = 2 := by
    simp [main_status, hv, ha]
  exact ⟨hm, by rw [ha], by rw [hm]; norm_num⟩

/-- C7 as amended: a non-positive block count is not rejected by any
validation; with a valid URL and a connected node the analyzer is invoked
with it, the analysis fails, and the process exits with code 2. -/
theorem nonpositive_count_not_rejected (args : Args) (w3 : W3)
    (hv : validScheme args.rpc = true) (h : args.count ≤ 0) :
    (analyze_chain_health w3 args.count).2 = none ∧
    main_status args true w3 = 2 := by
  have ha := analyze_nonpos w3 args.count h
  exact ⟨by rw [ha], by simp [main_status, hv, ha]⟩

/-- Witness for the amended C7 at count 0. -/
theorem nonpositive_count_not_rejected_witness :
    validScheme "http://node" = true ∧ (0 : ℤ) ≤ 0 ∧
    ((analyze_chain_health mockW3 0).2 = none ∧
     main_status { rpc := "http://node", count := 0 } true mockW3 = 2) :=
  ⟨by decide, le_refl 0,
    nonpositive_count_not_rejected { rpc := "http://node", count := 0 } mockW3
      (by decide) (le_refl 0)⟩

/-- Counterexample to C8: a raw block with non-negative fields
`gas_used = 2`, `gas_limit = 1` yields `utilization_percent = 200`,
outside the claimed 0-100 range (the code never clamps the ratio). -/
def overBlock : RawBlock :=
  { number := 0
    timestamp := 0
    transactions := []
    gasUsed := 2
    gasLimit := 1
    baseFeePerGas := none }

theorem utilization_above_100 :
    (extract_metrics overBlock).utilization_percent = 200 ∧
    ¬ ((extract_metrics overBlock).utilization_percent ≤ 100) := by
  have h : (extract_metrics overBlock).utilization_percent = 200 := by
    simp only [extract_metrics, overBlock]
    rw [if_pos (by norm_num)]
    have hq : (((2 : ℕ) : ℚ) / ((1 : ℕ) : ℚ)) * 100 = 200 := by norm_num
    rw [hq]
    exact pyRound_eq_self 200 2 20000 (by norm_num)
  exact ⟨h, by rw [h]; norm_num⟩

/-- C8 as amended: whenever `gas_used ≤ gas_limit` (both fields are
non-negative), the extracted `utilization_percent` lies in 0-100 and is a
multiple of 1/100 (rounded to 2 decimals). -/
lemma pyRound_two_bounds (x : ℚ) (h0 : 0 ≤ x) (h100 : x ≤ 100) :
    0 ≤ pyRound x 2 ∧ pyRound x 2 ≤ 100 ∧ ∃ z : ℤ, pyRound x 2 = (z : ℚ) / 100 := by
  have h102 : ((10 : ℚ) ^ (2 : ℕ)) = 100 := by norm_num
  have hup := roundHalfEven_le (x * (10 : ℚ) ^ (2 : ℕ))
  have hlo := le_roundHalfEven (x * (10 : ℚ) ^ (2 : ℕ))
  set rz := roundHalfEven (x * (10 : ℚ) ^ (2 : ℕ)) with hrz
  have hx0 : 0 ≤ x * (10 : ℚ) ^ (2 : ℕ) := by
    rw [h102]
    positivity
  have hx1 : x * (10 : ℚ) ^ (2 : ℕ) ≤ 10000 := by
    rw [h102]
    linarith
  have hzle : rz ≤ 10000 := by
    by_contra hcon
    push_neg at hcon
    have hc2 : (10001 : ℚ) ≤ (rz : ℚ) := by exact_mod_cast hcon
    linarith
  have hz0 : 0 ≤ rz := by
    by_contra hcon
    push_neg at hcon
    have hc1 : rz ≤ -1 := by omega
    have hc2 : (rz : ℚ) ≤ -1 := by exact_mod_cast hc1
    linarith
  have hzleQ : (rz : ℚ) ≤ 10000 := by exact_mod_cast hzle
  have hz0Q : (0 : ℚ) ≤ (rz : ℚ) := by exact_mod_cast hz0
  have hpr : pyRound x 2 = (rz : ℚ) / (10 : ℚ) ^ (2 : ℕ) := by
    unfold pyRound
    rw [← hrz]
  refine ⟨?_, ?_, ⟨rz, ?_⟩⟩
  · rw [hpr, h102]
    positivity
  · rw [hpr, h102, div_le_iff₀ (by norm_num : (0 : ℚ) < 100)]
    linarith
  · rw [hpr, h102]

theorem utilization_bounded (b : RawBlock) (h : b.gasUsed ≤ b.gasLimit) :
    0 ≤ (extract_metrics b).utilization_percent ∧
    (extract_metrics b).utilization_percent ≤ 100 ∧
    ∃ z : ℤ, (extract_metrics b).utilization_percent = (z : ℚ) / 100 := by
  by_cases hgl : b.gasLimit = 0
  · refine ⟨?_, ?_, ⟨0, ?_⟩⟩ <;>
      simp [extract_metrics, hgl]
  · have hglpos : (0 : ℚ) < (b.gasLimit : ℚ) := by
      exact_mod_cast Nat.pos_of_ne_zero hgl
    have hq0 : 0 ≤ ((b.gasUsed : ℚ) / (b.gasLimit : ℚ)) * 100 := by positivity
    have hq100 : ((b.gasUsed : ℚ) / (b.gasLimit : ℚ)) * 100 ≤ 100 := by
      have hratio : (b.gasUsed : ℚ) / (b.gasLimit : ℚ) ≤ 1 := by
        rw [div_le_one hglpos]
        exact_mod_cast h
      nlinarith
    have hutil : (extract_metrics b).utilization_percent =
        pyRound (((b.gasUsed : ℚ) / (b.gasLimit : ℚ)) * 100) 2 := by
      simp only [extract_metrics]
      rw [if_pos hgl]
    rw [hutil]
    exact pyRound_two_bounds (((b.gasUsed : ℚ) / (b.gasLimit : ℚ)) * 100) hq0 hq100

/-- Witness for the amended C8 at the 15M/30M block. -/
theorem utilization_bounded_witness :
    exampleBlock.gasUsed ≤ exampleBlock.gasLimit ∧
    (0 ≤ (extract_metrics exampleBlock).utilization_percent ∧
     (extract_metrics exampleBlock).utilization_percent ≤ 100 ∧
     ∃ z : ℤ, (extract_metrics exampleBlock).utilization_percent = (z : ℚ) / 100) :=
  ⟨by decide, utilization_bounded exampleBlock (by decide)⟩

/-- Claim C9: for a valid report (average utilization within 0-100), the
rendered utilization bar has exactly 20 segments: `floor(avg / 5)` filled
segments followed by the remaining empty segments. -/
theorem progress_bar_segments (avg : ℚ) (h0 : 0 ≤ avg) (h100 : avg ≤ 100) :
    filled_blocks avg = ⌊avg / 5⌋ ∧
    (renderBar avg).length = 20 ∧
    (renderBar avg).data.count '█' = (⌊avg / 5⌋).toNat ∧
    (renderBar avg).data.count '-' = 20 - (⌊avg / 5⌋).toNat := by
  have hdiv0 : 0 ≤ avg / 5 := by positivity
  have hfb : filled_blocks avg = ⌊avg / 5⌋ := by
    simp only [filled_blocks, pyInt, if_pos hdiv0]
  have hf0 : 0 ≤ ⌊avg / 5⌋ := Int.floor_nonneg.mpr hdiv0
  have hf20 : ⌊avg / 5⌋ ≤ 20 := by
    have h1 : avg / 5 ≤ 20 := by linarith
    have h2 : ⌊avg / 5⌋ ≤ ⌊(20 : ℚ)⌋ := Int.floor_le_floor h1
    simpa using h2
  have htn : (20 - filled_blocks avg).toNat = 20 - (filled_blocks avg).toNat := by
    rw [hfb]
    omega
  have hfle : (filled_blocks avg).toNat ≤ 20 := by
    rw [hfb]
    omega
  refine ⟨hfb, ?_, ?_, ?_⟩
  · show (renderBar avg).data.length = 20
    unfold renderBar
    rw [htn]
    simp only [String.mk, List.length_append, List.length_replicate]
    omega
  · unfold renderBar
    rw [htn, hfb]
    simp only [String.mk, List.count_append, List.count_replicate_self, List.count_replicate]
    norm_num
    intro hc
    exact absurd hc (by decide)
  · unfold renderBar
    rw [htn, hfb]
    simp only [String.mk, List.count_append, List.count_replicate_self, List.count_replicate]
    norm_num
    intro hc
    exact absurd hc (by decide)

/-- Witness for C9 at average utilization 47.3 (9 filled, 11 empty). -/
theorem progress_bar_segments_witness :
    (0 : ℚ) ≤ 473/10 ∧ (473/10 : ℚ) ≤ 100 ∧ ⌊(473/10 : ℚ) / 5⌋ = 9 ∧
    (filled_blocks (473/10) = ⌊(473/10 : ℚ) / 5⌋ ∧
     (renderBar (473/10)).length = 20 ∧
     (renderBar (473/10)).data.count '█' = (⌊(473/10 : ℚ) / 5⌋).toNat ∧
     (renderBar (473/10)).data.count '-' = 20 - (⌊(473/10 : ℚ) / 5⌋).toNat) :=
  ⟨by norm_num, by norm_num, by norm_num,
    progress_bar_segments (473/10) (by norm_num) (by norm_num)⟩

/-- Claim C10: a non-positive block count passes through `main` without
validation; the analyzer iterates an empty block range, the reduction step
fails on the empty sequence (the analysis raises), and the process exits
with code 2, not 1. -/
theorem nonpositive_count_exit_two (args : Args) (w3 : W3)
    (hv : validScheme args.rpc = true) (h : args.count ≤ 0) :
    pyRange (w3.block_number - args.count + 1) (w3.block_number + 1) = [] ∧
    analyze_chain_health w3 args.count = ([], none) ∧
    main_status args true w3 = 2 ∧
    main_status args true w3 ≠ 1 := by
  have hr : pyRange (w3.block_number - args.count + 1) (w3.block_number + 1) = [] :=
    pyRange_empty _ _ (by omega)
  have ha := analyze_nonpos w3 args.count h
  have hm : main_status args true w3 = 2 := by simp [main_status, hv, ha]
  exact ⟨hr, ha, hm, by rw [hm]; norm_num⟩

/-- Witness for C10 at count -3 against the mocked node. -/
theorem nonpositive_count_exit_two_witness :
    validScheme "https://node" = true ∧ (-3 : ℤ) ≤ 0 ∧
    (pyRange (mockW3.block_number - (-3) + 1) (mockW3.block_number + 1) = [] ∧
     analyze_chain_health mockW3 (-3) = ([], none) ∧
     main_status { rpc := "https://node", count := -3 } true mockW3 = 2 ∧
     main_status { rpc := "https://node", count := -3 } true mockW3 ≠ 1) :=
  ⟨by decide, by decide,
    nonpositive_count_exit_two { rpc := "https://node", count := -3 } mockW3
      (by decide) (by decide)⟩
